import Mathlib

/-!
Verification of the configuration-merge engine of the serendipity
project-scaffolding CLI.  The definitions below are a shallow embedding of
`packages/serendipity-public/src/utils/package-manager.ts`,
`packages/serendipity-service-react/src/core/ReactService.ts` and the
CoreManager validation behaviour fixed by
`packages/serendipity/__tests__/cliManager.spec.ts`.

JavaScript objects are embedded as insertion-ordered association lists of
string keys; JavaScript values as the inductive `Value` type.  Reading an
absent property yields `vUndefined`, writing a property keeps its original
insertion position or appends at the end, matching JS object semantics.
-/

set_option maxHeartbeats 1000000

namespace Serendipity

/-- A JSON-like JavaScript runtime value: `null`, `undefined`, booleans,
numbers, strings, arrays and plain objects (insertion-ordered field lists). -/
inductive Value : Type where
  | vNull : Value
  | vUndefined : Value
  | vBool : Bool → Value
  | vNum : Int → Value
  | vStr : String → Value
  | vArr : List Value → Value
  | vObj : List (String × Value) → Value

/-- A JavaScript object body: its fields in insertion order. -/
abbrev Fields := List (String × Value)

/-- JS truthiness: `null`, `undefined`, `false`, `0` and `""` are falsy;
arrays and objects (even empty ones) are truthy. -/
def truthy : Value → Bool
  | .vNull => false
  | .vUndefined => false
  | .vBool b => b
  | .vNum n => !(n == 0)
  | .vStr s => !s.isEmpty
  | .vArr _ => true
  | .vObj _ => true

/-- JS `typeof v === 'object'`: true for `null`, arrays and objects. -/
def typeofObject : Value → Bool
  | .vNull => true
  | .vArr _ => true
  | .vObj _ => true
  | _ => false

/-- Whether a value is a plain object (a mapping). -/
def Value.isVObj : Value → Bool
  | .vObj _ => true
  | _ => false

/-- The keys of an object, in insertion order. -/
def keys (l : Fields) : List String := l.map Prod.fst

/-- Property read, first matching key (JS objects never hold duplicates). -/
def lookupField : Fields → String → Option Value
  | [], _ => none
  | (k, v) :: rest, key => if k = key then some v else lookupField rest key

/-- JS property read `obj[key]`: an absent property reads as `undefined`. -/
def lookupJs (cfg : Fields) (key : String) : Value :=
  (lookupField cfg key).getD .vUndefined

/-- JS property write `obj[key] = v`: overwrites in place (keeping the key's
insertion position) or appends a new key at the end. -/
def setKey : Fields → String → Value → Fields
  | [], key, v => [(key, v)]
  | (k, w) :: rest, key, v =>
      if k = key then (k, v) :: rest else (k, w) :: setKey rest key v

/-! ### Semver ranges and the dependency merger

`mergeDependencies` is imported by `package-manager.ts` from
`./merge-deps`, a module whose source is not part of the repository slice.
It is modelled from the spec below. -/

/-- Parse a decimal numeral from characters. -/
def parseNatChars (cs : List Char) : Option Nat :=
  if cs.isEmpty then none
  else
    cs.foldl
      (fun acc c =>
        match acc with
        | none => none
        | some n => if c.isDigit then some (n * 10 + (c.toNat - 48)) else none)
      (some 0)

/-- Split a character list on `'.'`. -/
def splitOnDot : List Char → List (List Char)
  | [] => [[]]
  | c :: rest =>
      let r := splitOnDot rest
      if c = '.' then [] :: r
      else
        match r with
        | [] => [[c]]
        | h :: t => (c :: h) :: t

/-- Parse a semver range of the shape `major.minor.patch`, optionally led by
a `^` or `~` range marker, into its version triple. -/
def parseSemver (s : String) : Option (Nat × Nat × Nat) :=
  let cs :=
    match s.data with
    | '^' :: rest => rest
    | '~' :: rest => rest
    | l => l
  match splitOnDot cs with
  | [a, b, c] =>
      match parseNatChars a, parseNatChars b, parseNatChars c with
      | some x, some y, some z => some (x, y, z)
      | _, _, _ => none
  | _ => none

/-- Strict lexicographic order on version triples. -/
def semverLtB (a b : Nat × Nat × Nat) : Bool :=
  decide (a.1 < b.1) ||
    (decide (a.1 = b.1) &&
      (decide (a.2.1 < b.2.1) ||
        (decide (a.2.1 = b.2.1) && decide (a.2.2 < b.2.2))))

/-- Modelled from the spec: the version-reconciliation policy of the
Dependency Merger (spec 4.1), whose source `merge-deps.ts` is absent from
the repository slice — "prefer the incoming version when it is a valid,
more specific/newer semver range than the existing one; otherwise keep the
existing version". -/
def newerRange (incoming existing : Value) : Bool :=
  match incoming with
  | .vStr si =>
      match parseSemver si with
      | none => false
      | some vi =>
          match existing with
          | .vStr se =>
              match parseSemver se with
              | none => true
              | some ve => semverLtB ve vi
          | _ => true
  | _ => false

/-- One step of the dependency merge: reconcile a single incoming entry
against the accumulated map. -/
def depStep (acc : Fields) (nv : String × Value) : Fields :=
  match lookupField acc nv.1 with
  | none => acc ++ [nv]
  | some old => if newerRange nv.2 old then setKey acc nv.1 nv.2 else acc

/-- Modelled from the spec: the Dependency Merger (spec 4.1), whose source
`merge-deps.ts` is absent from the repository slice.  A package present in
only one map is carried unchanged; a package present in both keeps the
existing range unless the incoming range is a valid, newer one.  Inputs are
not mutated; a new map is returned. -/
def mergeDependencies (current incoming : Fields) : Fields :=
  incoming.foldl depStep current

/-- The cast `(value as BaseObject)` applied by `mergeIntoCurrent` before
handing a value to the dependency merger: an object contributes its own
fields, an array its `Object.keys` view (index strings), anything else no
fields at all. -/
def Value.toFields : Value → Fields
  | .vObj f => f
  | .vArr xs => (xs.zip (List.range xs.length)).map (fun p => (toString p.2, p.1))
  | _ => []

/-! ### The generic deep merge

`webpackMerge` is re-exported by `serendipity-public`'s index (absent from
the repository slice) and used by `mergeIntoCurrent` for non-dependency
object fields, and by `ReactService` for bundler-config fragments. -/

/-- Modelled from the spec: the key-recursive part of the generic Object
Merger (spec 4.2 rule 4), whose implementing module is absent from the
repository slice — both-mapping values are deep-merged key by key,
any other value at a key is overwritten by the incoming one.  Keys only in
the base keep their position; new keys are appended in incoming order. -/
def wmFields : Fields → Fields → Fields
  | fa, [] => fa
  | fa, (k, Value.vObj h) :: rest =>
      (match lookupField fa k with
        | some (Value.vObj g) => wmFields (setKey fa k (Value.vObj (wmFields g h))) rest
        | _ => wmFields (setKey fa k (Value.vObj h)) rest)
  | fa, (k, bv) :: rest => wmFields (setKey fa k bv) rest
termination_by _ l => sizeOf l
decreasing_by
  all_goals simp_wf
  all_goals omega

/-- The per-key value decision of `wmFields`: recurse when both the base and
the incoming value at the key are mappings, otherwise take the incoming
value. -/
def wmTop (o : Option Value) (bv : Value) : Value :=
  match o, bv with
  | some (.vObj g), .vObj h => .vObj (wmFields g h)
  | _, _ => bv

/-- Modelled from the spec: the generic deep merge (spec 4.2 rule 4).
When both sides are mappings their keys are merged recursively; otherwise
the incoming value wins. -/
def webpackMerge (a b : Value) : Value :=
  match a, b with
  | .vObj fa, .vObj fb => .vObj (wmFields fa fb)
  | _, b => b

/-! ### Well-formedness of JS-representable objects

JavaScript objects never hold two fields with the same key.  `wfFields`
states this recursively for every nested object value. -/

/-- Every nested object (at any depth) has pairwise distinct keys. -/
def wfFields : Fields → Bool
  | [] => true
  | (_, v) :: rest =>
      (match v with
       | .vObj g => decide ((g.map Prod.fst).Nodup) && wfFields g
       | _ => true) && wfFields rest
termination_by l => sizeOf l
decreasing_by
  all_goals simp_wf
  all_goals omega

/-- A JS-representable value: all nested objects have distinct keys. -/
def wfValue : Value → Bool
  | .vObj f => decide ((f.map Prod.fst).Nodup) && wfFields f
  | _ => true

/-! ### `PackageManager.mergeIntoCurrent`

Embedding of `package-manager.ts` lines 98-142. -/

/-- The `MergePackageConfigOptions` record (`types`): both fields optional. -/
structure MergePackageConfigOptions : Type where
  merge : Option Bool
  ignoreNullOrUndefined : Option Bool

/-- Options after `Object.assign({merge: true, ignoreNullOrUndefined: true},
options)` (lines 99-104): absent fields keep their defaults. -/
structure ResolvedMergeOptions : Type where
  merge : Bool
  ignoreNullOrUndefined : Bool

/-- Resolve the optional options argument against the defaults. -/
def resolveMergeOptions : Option MergePackageConfigOptions → ResolvedMergeOptions
  | none => ⟨true, true⟩
  | some o => ⟨o.merge.getD true, o.ignoreNullOrUndefined.getD true⟩

/-- `key === 'dependencies' || key === 'devDependencies'` (line 115). -/
def isDependenciesKey (k : String) : Bool :=
  decide (k = "dependencies") || decide (k = "devDependencies")

/-- The body of the `mergeIntoCurrent` loop (lines 108-141) for one key of
the incoming fragment:

* skip the key when `ignoreNullOrUndefined` and the incoming value is falsy;
* write directly when `merge` is off or the existing value is falsy;
* delegate `dependencies` / `devDependencies` object values to
  `mergeDependencies`;
* deep-merge when both values have `typeof === 'object'`;
* otherwise leave the configuration unchanged. -/
def mergeKey (cfg : Fields) (key : String) (val : Value)
    (o : ResolvedMergeOptions) : Fields :=
  let oldValue := lookupJs cfg key
  if o.ignoreNullOrUndefined && !truthy val then cfg
  else if !o.merge || !truthy oldValue then setKey cfg key val
  else if typeofObject val && isDependenciesKey key then
    setKey cfg key (.vObj (mergeDependencies oldValue.toFields val.toFields))
  else if typeofObject val && typeofObject oldValue then
    setKey cfg key (webpackMerge oldValue val)
  else cfg

/-- The value stored at `key` after `mergeKey`, as a function of the value
previously stored there (`none` when the key was absent). -/
def mergeKeyValue (old : Option Value) (key : String) (val : Value)
    (o : ResolvedMergeOptions) : Option Value :=
  let oldValue := old.getD .vUndefined
  if o.ignoreNullOrUndefined && !truthy val then old
  else if !o.merge || !truthy oldValue then some val
  else if typeofObject val && isDependenciesKey key then
    some (.vObj (mergeDependencies oldValue.toFields val.toFields))
  else if typeofObject val && typeofObject oldValue then
    some (webpackMerge oldValue val)
  else old

/-- `PackageManager.mergeIntoCurrent(data, options)` (lines 98-142): iterate
over the keys of the incoming fragment in insertion order, merging each into
the stored configuration. -/
def PackageManager.mergeIntoCurrent (cfg : Fields) (data : Fields)
    (options : Option MergePackageConfigOptions) : Fields :=
  data.foldl (fun acc kv => mergeKey acc kv.1 kv.2 (resolveMergeOptions options)) cfg

/-! ### `PackageManager.getPackageConfig`

Embedding of `package-manager.ts` lines 180-193.  The source aliases the
stored configuration (`const tmp = this.packageConfig`) and deletes from it,
so the function both mutates the manager state and returns the sorted view;
it is embedded as a state-passing function returning the new stored
configuration together with the returned object. -/

/-- The deletion condition of line 187:
`val !== null && typeof val === 'object' && Object.keys(val).length === 0`. -/
def isEmptyObjectLike : Value → Bool
  | .vObj [] => true
  | .vArr [] => true
  | _ => false

/-- The `for (const tmpKey in tmp) ... delete tmp[tmpKey]` loop of lines
182-191: remove every top-level key holding an empty object value. -/
def pruneEmptyTop (cfg : Fields) : Fields :=
  cfg.filter (fun kv => !isEmptyObjectLike kv.2)

/-- Ordered insertion by key. -/
def insertSorted (kv : String × Value) : Fields → Fields
  | [] => [kv]
  | h :: t => if kv.1 ≤ h.1 then kv :: h :: t else h :: insertSorted kv t

/-- Modelled from the spec: `sort-package-json` (an external package, no
source in the repository slice) — "a stable, deterministic key ordering
suitable for readable diffs ... exact ordering is a presentation concern,
not a correctness one" (spec 4.3); embedded as an insertion sort of the
top-level keys.  It returns a new object and does not mutate its input. -/
def sortPackageJson (cfg : Fields) : Fields :=
  cfg.foldr insertSorted []

/-- `PackageManager.getPackageConfig()` (lines 180-193): first component is
the stored configuration after the in-place deletions, second component the
sorted object handed to the caller. -/
def PackageManager.getPackageConfig (cfg : Fields) : Fields × Fields :=
  let pruned := pruneEmptyTop cfg
  (pruned, sortPackageJson pruned)

/-! ### Construction of a `PackageManager`

Embedding of `package-manager.ts` lines 34-88.  The filesystem is abstracted
to what the construction path observes: the parse result of
`<basePath>/package.json` and the existence of `yarn.lock`. -/

/-- What the construction of a manager observes about a base directory. -/
structure WorkingDirectory : Type where
  /-- Modelled from the spec: the result of `resolveModule` (its source is
  absent from the repository slice) on `<basePath>/package.json` — `none`
  when the file is missing or unparsable, otherwise the parsed object. -/
  packageJson : Option Fields
  /-- Whether `yarn.lock` exists in the base directory. -/
  yarnLockExists : Bool

/-- The manager state relevant to the claims: the package-manager CLI name
and the in-memory `package.json` model. -/
structure PackageManagerState : Type where
  managerName : String
  packageConfig : Fields

/-- The options record accepted by the constructor. -/
structure PackageManagerOptions : Type where
  managerName : Option String
  packageConfig : Option Fields

/-- `PackageManager.getPackageManagerName` (lines 285-288). -/
def getPackageManagerName (dir : WorkingDirectory) : String :=
  if dir.yarnLockExists then "yarn" else "npm"

/-- Modelled from the spec: `PACKAGE_JSON_BASE`, the built-in default
skeleton (exported by `serendipity-public`'s index, absent from the
repository slice). -/
def PACKAGE_JSON_BASE : Fields :=
  [("name", .vStr "serendipity-project"), ("version", .vStr "1.0.0")]

/-- The constructor (lines 34-39): fall back to the auto-detected manager
name and to the built-in skeleton when the options omit them. -/
def PackageManager.construct (dir : WorkingDirectory)
    (options : PackageManagerOptions) : PackageManagerState :=
  { managerName := options.managerName.getD (getPackageManagerName dir)
    packageConfig := options.packageConfig.getD PACKAGE_JSON_BASE }

/-- `resolvePackageConfig` (lines 79-88): overwrite the state with the
on-disk configuration, or throw when `package.json` cannot be resolved. -/
def PackageManager.resolvePackageConfig (dir : WorkingDirectory)
    (st : PackageManagerState) : Except String PackageManagerState :=
  match dir.packageJson with
  | some cfg => .ok { st with packageConfig := cfg }
  | none => .error "package.json 文件不存在！"

/-- `PackageManager.createWithResolve` (lines 48-59): construct without a
caller-supplied skeleton, then resolve from disk. -/
def PackageManager.createWithResolve (dir : WorkingDirectory) :
    Except String PackageManagerState :=
  PackageManager.resolvePackageConfig dir
    (PackageManager.construct dir ⟨some (getPackageManagerName dir), none⟩)

/-- `PackageManager.createWithOptions` (lines 68-70): construct directly
from the options, never touching the disk. -/
def PackageManager.createWithOptions (dir : WorkingDirectory)
    (options : PackageManagerOptions) : PackageManagerState :=
  PackageManager.construct dir options

/-! ### `CoreManager.validateCreateCommand`

The CoreManager source is not part of the repository slice; only its unit
test (`cliManager.spec.ts` lines 25-38) is. -/

/-- The arguments record of the `create` command. -/
structure CreateCommandArgs : Type where
  type : Option String

/-- The validation result `{validated, message}`. -/
structure ValidationResult : Type where
  validated : Bool
  message : Option String

/-- The fixed failure message, pinned by the unit test. -/
def serviceTypeEmptyMessage : String :=
  "service 类型为空，请选择一个正确的项目类型，例如 \x27react\x27"

/-- Modelled from the spec: `CoreManager.validateCreateCommand` (its source
is absent from the repository slice; behaviour fixed by spec 4.5 and the
unit test) — "Fails validation (message non-null) when the required
project-type argument is absent or empty; succeeds (message null)
otherwise."  Pure, no I/O. -/
def CoreManager.validateCreateCommand (args : CreateCommandArgs) :
    ValidationResult :=
  match args.type with
  | none => ⟨false, some serviceTypeEmptyMessage⟩
  | some s => if s = "" then ⟨false, some serviceTypeEmptyMessage⟩ else ⟨true, none⟩

/-! ### `ReactService.start`

Embedding of `ReactService.ts` lines 66-98: what the dev-server delegate
receives.  Plugin runtime hooks contribute webpack fragments through
`mergeWebpackConfig`; the user's app configuration is merged last; the
listening host and port come from `appConfig.additional` alone. -/

/-- The `additional` section of the user's app configuration consumed by
the react service. -/
structure ReactServiceAppConfigOptions : Type where
  webpackDevServerPort : Option Nat
  webpackDevServerHost : Option String

/-- The `webpack` section of the user's app configuration. -/
structure WebpackSection : Type where
  webpackConfig : Option Value

/-- The user's app configuration as read by `ReactService.start`. -/
structure AppConfig : Type where
  webpack : Option WebpackSection
  additional : Option ReactServiceAppConfigOptions

/-- Modelled from the spec: the default dev-server port (constants module
absent from the repository slice; value fixed by the in-source comment
"如果用户配置文件不存在则取 9000 -- 0.0.0.0"). -/
def DEFAULT_WEBPACK_DEV_SERVER_PORT : Nat := 9000

/-- Modelled from the spec: the default dev-server host (same source). -/
def DEFAULT_WEBPACK_DEV_SERVER_HOST : String := "0.0.0.0"

/-- JS `x || d` on an optionally-present number. -/
def jsOrNat (x : Option Nat) (d : Nat) : Nat :=
  match x with
  | some v => if v = 0 then d else v
  | none => d

/-- JS `x || d` on an optionally-present string. -/
def jsOrStr (x : Option String) (d : String) : String :=
  match x with
  | some v => if v.isEmpty then d else v
  | none => d

/-- What `ReactService.start` hands to webpack and to the dev server. -/
structure StartResult : Type where
  finalWebpackConfig : Value
  listenPort : Nat
  listenHost : String

/-- `ReactService.start()` (lines 66-98): run the runtime plugins (each
fragment merged via `webpackMerge`), merge the user's webpack configuration
last, then listen on `additional?.webpackDevServerPort || 9000` and
`additional?.webpackDevServerHost || '0.0.0.0'`. -/
def ReactService.start (appConfig : AppConfig) (baseWebpackConfig : Value)
    (pluginFragments : List Value) : StartResult :=
  let afterPlugins := pluginFragments.foldl webpackMerge baseWebpackConfig
  let finalConfig :=
    match appConfig.webpack with
    | some w =>
        match w.webpackConfig with
        | some c => webpackMerge afterPlugins c
        | none => afterPlugins
    | none => afterPlugins
  { finalWebpackConfig := finalConfig
    listenPort :=
      jsOrNat (appConfig.additional.bind ReactServiceAppConfigOptions.webpackDevServerPort)
        DEFAULT_WEBPACK_DEV_SERVER_PORT
    listenHost :=
      jsOrStr (appConfig.additional.bind ReactServiceAppConfigOptions.webpackDevServerHost)
        DEFAULT_WEBPACK_DEV_SERVER_HOST }

/-! ### Association-list lemmas -/

theorem mem_keys_of_mem {k : String} {v : Value} {t : Fields}
    (h : (k, v) ∈ t) : k ∈ keys t :=
  List.mem_map_of_mem Prod.fst h

theorem keys_nodup_cons (k0 : String) (w : Value) (t : Fields) :
    (keys ((k0, w) :: t)).Nodup ↔ k0 ∉ keys t ∧ (keys t).Nodup :=
  List.nodup_cons

theorem lookup_setKey_self (l : Fields) (k : String) (v : Value) :
    lookupField (setKey l k v) k = some v := by
  induction l with
  | nil => simp [setKey, lookupField]
  | cons h t ih =>
      obtain ⟨k0, w⟩ := h
      by_cases hk : k0 = k
      · simp [setKey, hk, lookupField]
      · simp [setKey, hk, lookupField, ih]

theorem lookup_setKey_ne (l : Fields) (k k1 : String) (v : Value)
    (h : k ≠ k1) : lookupField (setKey l k v) k1 = lookupField l k1 := by
  induction l with
  | nil => simp [setKey, lookupField, h]
  | cons hd t ih =>
      obtain ⟨k0, w⟩ := hd
      by_cases hk : k0 = k
      · subst hk
        simp [setKey, lookupField, h]
      · simp [setKey, hk, lookupField, ih]

theorem setKey_self (l : Fields) (k : String) (v : Value)
    (h : lookupField l k = some v) : setKey l k v = l := by
  induction l with
  | nil => simp [lookupField] at h
  | cons hd t ih =>
      obtain ⟨k0, w⟩ := hd
      by_cases hk : k0 = k
      · subst hk
        simp [lookupField] at h
        simp [setKey, h]
      · simp [lookupField, hk] at h
        simp [setKey, hk, ih h]

theorem mem_keys_setKey (l : Fields) (k k1 : String) (v : Value)
    (h : k1 ∈ keys l) : k1 ∈ keys (setKey l k v) := by
  induction l with
  | nil => simp [keys] at h
  | cons hd t ih =>
      obtain ⟨k0, w⟩ := hd
      by_cases hk : k0 = k
      · subst hk
        simpa [setKey, keys] using h
      · simp [keys] at h
        rcases h with h | h
        · simp [setKey, hk, keys, h]
        · simp [setKey, hk, keys]
          exact Or.inr (by simpa [keys] using ih (by simpa [keys] using h))

theorem lookup_of_nodup_mem (l : Fields) (k : String) (v : Value)
    (hnd : (keys l).Nodup) (hmem : (k, v) ∈ l) : lookupField l k = some v := by
  induction l with
  | nil => simp at hmem
  | cons hd t ih =>
      obtain ⟨k0, w⟩ := hd
      obtain ⟨hk0, hndt⟩ := (keys_nodup_cons k0 w t).mp hnd
      rcases List.mem_cons.mp hmem with h | h
      · rw [Prod.mk.injEq] at h
        obtain ⟨h1, h2⟩ := h
        subst h1; subst h2
        simp [lookupField]
      · have hk : k0 ≠ k := by
          intro hkk
          subst hkk
          exact hk0 (mem_keys_of_mem h)
        simp [lookupField, hk]
        exact ih hndt h

theorem foldl_fixed {α β : Type} (g : α → β → α) (a : α) (l : List β)
    (h : ∀ x ∈ l, g a x = a) : l.foldl g a = a := by
  induction l with
  | nil => rfl
  | cons hd t ih =>
      rw [List.foldl_cons, h hd (List.mem_cons_self hd t)]
      exact ih (fun x hx => h x (List.mem_cons_of_mem hd hx))

/-! ### Irreflexivity of the version-preference policy -/

theorem truthy_vObj (f : Fields) : truthy (.vObj f) = true := rfl

theorem semverLtB_irrefl (a : Nat × Nat × Nat) : semverLtB a a = false := by
  simp [semverLtB]

theorem newerRange_irrefl (v : Value) : newerRange v v = false := by
  cases v with
  | vStr s =>
      simp only [newerRange]
      cases h : parseSemver s with
      | none => rfl
      | some t => simp [semverLtB_irrefl]
  | vNull => rfl
  | vUndefined => rfl
  | vBool b => rfl
  | vNum n => rfl
  | vArr xs => rfl
  | vObj f => rfl

/-! ### Dependency-merge lemmas -/

theorem lookup_append (l m : Fields) (k : String) :
    lookupField (l ++ m) k =
      match lookupField l k with
      | some v => some v
      | none => lookupField m k := by
  induction l with
  | nil => simp [lookupField]
  | cons hd t ih =>
      obtain ⟨k0, w⟩ := hd
      by_cases hk : k0 = k
      · simp [lookupField, hk]
      · simp [lookupField, hk, ih]

theorem depStep_lookup_ne (acc : Fields) (nv : String × Value) (k : String)
    (h : nv.1 ≠ k) : lookupField (depStep acc nv) k = lookupField acc k := by
  unfold depStep
  cases hl : lookupField acc nv.1 with
  | none =>
      rw [lookup_append]
      cases hk : lookupField acc k with
      | none => simp [lookupField, h]
      | some w => simp
  | some old =>
      by_cases hn : newerRange nv.2 old = true
      · simp [hn, lookup_setKey_ne _ _ _ _ h]
      · simp [hn]

theorem depFold_lookup_ne (l : List (String × Value)) (acc : Fields) (k : String)
    (h : ∀ kv ∈ l, kv.1 ≠ k) :
    lookupField (l.foldl depStep acc) k = lookupField acc k := by
  induction l generalizing acc with
  | nil => rfl
  | cons hd t ih =>
      rw [List.foldl_cons, ih _ (fun kv hkv => h kv (List.mem_cons_of_mem hd hkv)),
        depStep_lookup_ne _ _ _ (h hd (List.mem_cons_self hd t))]

theorem mergeDependencies_lookup (f : Fields) (n : String) (ver : Value)
    (hnd : (keys f).Nodup) (hmem : (n, ver) ∈ f) :
    ∀ g : Fields, ∃ w, lookupField (mergeDependencies g f) n = some w ∧
      newerRange ver w = false := by
  induction f with
  | nil => simp at hmem
  | cons hd t ih =>
      intro g
      obtain ⟨n0, v0⟩ := hd
      obtain ⟨hn0, hndt⟩ := (keys_nodup_cons n0 v0 t).mp hnd
      rcases List.mem_cons.mp hmem with h | h
      · rw [Prod.mk.injEq] at h
        obtain ⟨h1, h2⟩ := h
        subst h1; subst h2
        have hrest : ∀ kv ∈ t, kv.1 ≠ n := by
          intro kv hkv he
          apply hn0
          rw [← he]
          exact List.mem_map_of_mem Prod.fst hkv
        unfold mergeDependencies
        rw [List.foldl_cons, depFold_lookup_ne _ _ _ hrest]
        unfold depStep
        cases hl : lookupField g n with
        | none =>
            refine ⟨ver, ?_, newerRange_irrefl ver⟩
            rw [lookup_append, hl]
            simp [lookupField]
        | some old =>
            by_cases hn : newerRange ver old = true
            · exact ⟨ver, by simp [hn, lookup_setKey_self], newerRange_irrefl ver⟩
            · exact ⟨old, by simp [hn, hl], by simpa using hn⟩
      · unfold mergeDependencies
        rw [List.foldl_cons]
        exact ih hndt h _

theorem mergeDependencies_stable (f m : Fields)
    (h : ∀ kv ∈ f, ∃ w, lookupField m kv.1 = some w ∧ newerRange kv.2 w = false) :
    mergeDependencies m f = m := by
  unfold mergeDependencies
  apply foldl_fixed
  intro kv hkv
  obtain ⟨w, hw, hnew⟩ := h kv hkv
  unfold depStep
  rw [hw]
  simp [hnew]

theorem mergeDependencies_self (f : Fields) (hnd : (keys f).Nodup) :
    mergeDependencies f f = f := by
  apply mergeDependencies_stable
  intro kv hkv
  exact ⟨kv.2, lookup_of_nodup_mem _ _ _ hnd (by simpa using hkv), newerRange_irrefl kv.2⟩

theorem mergeDependencies_idem (g f : Fields) (hnd : (keys f).Nodup) :
    mergeDependencies (mergeDependencies g f) f = mergeDependencies g f := by
  apply mergeDependencies_stable
  intro kv hkv
  obtain ⟨w, hw, hnew⟩ := mergeDependencies_lookup f kv.1 kv.2 hnd (by simpa using hkv) g
  exact ⟨w, hw, hnew⟩

/-! ### Well-formedness extraction lemmas -/

theorem wfFields_cons (k : String) (v : Value) (rest : Fields) :
    wfFields ((k, v) :: rest) = (wfValue v && wfFields rest) := by
  cases v <;> simp [wfFields, wfValue]

theorem wfFields_mem (f : Fields) (hwf : wfFields f = true) :
    ∀ kv ∈ f, wfValue kv.2 = true := by
  induction f with
  | nil => simp
  | cons hd t ih =>
      obtain ⟨k, v⟩ := hd
      rw [wfFields_cons, Bool.and_eq_true] at hwf
      intro kv hkv
      rcases List.mem_cons.mp hkv with h | h
      · rw [h]
        exact hwf.1
      · exact ih hwf.2 kv h

theorem wfValue_vObj (f : Fields) :
    wfValue (.vObj f) = true ↔ (keys f).Nodup ∧ wfFields f = true := by
  simp [wfValue, keys]

/-! ### Deep-merge lemmas -/

theorem wmFields_nil (fa : Fields) : wmFields fa [] = fa := by
  simp [wmFields]

theorem wmFields_cons (fa : Fields) (k : String) (bv : Value) (rest : Fields) :
    wmFields fa ((k, bv) :: rest) =
      wmFields (setKey fa k (wmTop (lookupField fa k) bv)) rest := by
  cases bv with
  | vObj h =>
      cases hfa : lookupField fa k with
      | none => simp [wmFields, wmTop, hfa]
      | some av => cases av <;> simp [wmFields, wmTop, hfa]
  | vNull =>
      cases hfa : lookupField fa k with
      | none => simp [wmFields, wmTop, hfa]
      | some av => cases av <;> simp [wmFields, wmTop, hfa]
  | vUndefined =>
      cases hfa : lookupField fa k with
      | none => simp [wmFields, wmTop, hfa]
      | some av => cases av <;> simp [wmFields, wmTop, hfa]
  | vBool b =>
      cases hfa : lookupField fa k with
      | none => simp [wmFields, wmTop, hfa]
      | some av => cases av <;> simp [wmFields, wmTop, hfa]
  | vNum n =>
      cases hfa : lookupField fa k with
      | none => simp [wmFields, wmTop, hfa]
      | some av => cases av <;> simp [wmFields, wmTop, hfa]
  | vStr s2 =>
      cases hfa : lookupField fa k with
      | none => simp [wmFields, wmTop, hfa]
      | some av => cases av <;> simp [wmFields, wmTop, hfa]
  | vArr xs =>
      cases hfa : lookupField fa k with
      | none => simp [wmFields, wmTop, hfa]
      | some av => cases av <;> simp [wmFields, wmTop, hfa]

theorem wmTop_not_obj (o : Option Value) (bv : Value)
    (h : bv.isVObj = false) : wmTop o bv = bv := by
  cases bv with
  | vObj f => simp [Value.isVObj] at h
  | vNull => cases o with | none => rfl | some av => cases av <;> rfl
  | vUndefined => cases o with | none => rfl | some av => cases av <;> rfl
  | vBool b => cases o with | none => rfl | some av => cases av <;> rfl
  | vNum n => cases o with | none => rfl | some av => cases av <;> rfl
  | vStr s2 => cases o with | none => rfl | some av => cases av <;> rfl
  | vArr xs => cases o with | none => rfl | some av => cases av <;> rfl

theorem wmFields_lookup_ne (l : List (String × Value)) (g : Fields) (k : String)
    (h : ∀ kv ∈ l, kv.1 ≠ k) :
    lookupField (wmFields g l) k = lookupField g k := by
  induction l generalizing g with
  | nil => simp [wmFields_nil]
  | cons hd t ih =>
      obtain ⟨k0, bv⟩ := hd
      rw [wmFields_cons]
      rw [ih _ (fun kv hkv => h kv (List.mem_cons_of_mem _ hkv))]
      exact lookup_setKey_ne _ _ _ _ (h (k0, bv) (List.mem_cons_self _ _))

theorem wm_master : ∀ N : Nat, ∀ l : Fields, sizeOf l < N →
    ((∀ fa : Fields, (∀ kv ∈ l, lookupField fa kv.1 = some kv.2) →
        (∀ kv ∈ l, wfValue kv.2 = true) → wmFields fa l = fa) ∧
      ((keys l).Nodup → wfFields l = true →
        ∀ fa : Fields, wmFields (wmFields fa l) l = wmFields fa l)) := by
  intro N
  induction N with
  | zero => intro l hl; omega
  | succ N ih =>
      intro l hl
      cases l with
      | nil =>
          refine ⟨fun fa _ _ => wmFields_nil fa, fun _ _ fa => ?_⟩
          rw [wmFields_nil, wmFields_nil]
      | cons hd rest =>
          obtain ⟨k, bv⟩ := hd
          have hsz : sizeOf rest < N := by
            simp only [List.cons.sizeOf_spec] at hl
            omega
          have hszbv : ∀ h1 : List (String × Value), bv = .vObj h1 → sizeOf h1 < N := by
            intro h1 he
            subst he
            simp only [List.cons.sizeOf_spec, Prod.mk.sizeOf_spec,
              Value.vObj.sizeOf_spec] at hl
            omega
          have hselfsub : ∀ h1 : List (String × Value), bv = .vObj h1 →
              wfValue bv = true → wmFields h1 h1 = h1 := by
            intro h1 he hwfbv
            subst he
            obtain ⟨hnd1, hwf1⟩ := (wfValue_vObj h1).mp hwfbv
            exact (ih h1 (hszbv h1 rfl)).1 h1
              (fun kv hkv => lookup_of_nodup_mem _ _ _ hnd1 (by simpa using hkv))
              (wfFields_mem h1 hwf1)
          constructor
          · -- stability: every entry already present with its own (wf) value
            intro fa hlook hwf
            have hbv : lookupField fa k = some bv :=
              hlook (k, bv) (List.mem_cons_self _ _)
            have hwfbv : wfValue bv = true := hwf (k, bv) (List.mem_cons_self _ _)
            have hnv : wmTop (lookupField fa k) bv = bv := by
              rw [hbv]
              cases bv with
              | vObj h1 => simp [wmTop, hselfsub h1 rfl hwfbv]
              | vNull => rfl
              | vUndefined => rfl
              | vBool b => rfl
              | vNum n => rfl
              | vStr s2 => rfl
              | vArr xs => rfl
            rw [wmFields_cons, hnv, setKey_self _ _ _ hbv]
            exact (ih rest hsz).1 fa
              (fun kv hkv => hlook kv (List.mem_cons_of_mem _ hkv))
              (fun kv hkv => hwf kv (List.mem_cons_of_mem _ hkv))
          · -- idempotence of a second identical merge
            intro hnd hwf fa
            obtain ⟨hk, hndr⟩ := (keys_nodup_cons k bv rest).mp hnd
            rw [wfFields_cons, Bool.and_eq_true] at hwf
            obtain ⟨hwfbv, hwfr⟩ := hwf
            have hne : ∀ kv ∈ rest, kv.1 ≠ k := by
              intro kv hkv he
              apply hk
              rw [← he]
              exact List.mem_map_of_mem Prod.fst hkv
            rw [wmFields_cons fa]
            have hlookM : lookupField
                (wmFields (setKey fa k (wmTop (lookupField fa k) bv)) rest) k =
                some (wmTop (lookupField fa k) bv) := by
              rw [wmFields_lookup_ne _ _ _ hne, lookup_setKey_self]
            rw [wmFields_cons (wmFields (setKey fa k (wmTop (lookupField fa k) bv)) rest),
              hlookM]
            have hnv2 : wmTop (some (wmTop (lookupField fa k) bv)) bv =
                wmTop (lookupField fa k) bv := by
              cases bv with
              | vObj h1 =>
                  obtain ⟨hnd1, hwf1⟩ := (wfValue_vObj h1).mp hwfbv
                  have hidem := (ih h1 (hszbv h1 rfl)).2 hnd1 hwf1
                  cases hfa : lookupField fa k with
                  | none => simp [wmTop, hselfsub h1 rfl hwfbv]
                  | some av =>
                      cases av with
                      | vObj g1 => simp [wmTop, hidem g1]
                      | vNull => simp [wmTop, hselfsub h1 rfl hwfbv]
                      | vUndefined => simp [wmTop, hselfsub h1 rfl hwfbv]
                      | vBool b => simp [wmTop, hselfsub h1 rfl hwfbv]
                      | vNum n => simp [wmTop, hselfsub h1 rfl hwfbv]
                      | vStr s2 => simp [wmTop, hselfsub h1 rfl hwfbv]
                      | vArr xs => simp [wmTop, hselfsub h1 rfl hwfbv]
              | vNull =>
                  rw [wmTop_not_obj (lookupField fa k) Value.vNull rfl]
                  rfl
              | vUndefined =>
                  rw [wmTop_not_obj (lookupField fa k) Value.vUndefined rfl]
                  rfl
              | vBool b =>
                  rw [wmTop_not_obj (lookupField fa k) (Value.vBool b) rfl]
                  rfl
              | vNum n =>
                  rw [wmTop_not_obj (lookupField fa k) (Value.vNum n) rfl]
                  rfl
              | vStr s2 =>
                  rw [wmTop_not_obj (lookupField fa k) (Value.vStr s2) rfl]
                  rfl
              | vArr xs =>
                  rw [wmTop_not_obj (lookupField fa k) (Value.vArr xs) rfl]
                  rfl
            rw [hnv2, setKey_self _ _ _ hlookM]
            exact (ih rest hsz).2 hndr hwfr (setKey fa k (wmTop (lookupField fa k) bv))

theorem wmFields_self (f : Fields) (hnd : (keys f).Nodup)
    (hwf : wfFields f = true) : wmFields f f = f :=
  (wm_master (sizeOf f + 1) f (by omega)).1 f
    (fun kv hkv => lookup_of_nodup_mem _ _ _ hnd (by simpa using hkv))
    (wfFields_mem f hwf)

theorem wmFields_idem (fa f : Fields) (hnd : (keys f).Nodup)
    (hwf : wfFields f = true) : wmFields (wmFields fa f) f = wmFields fa f :=
  (wm_master (sizeOf f + 1) f (by omega)).2 hnd hwf fa

theorem webpackMerge_self (v : Value) (h : wfValue v = true) :
    webpackMerge v v = v := by
  cases v with
  | vObj f =>
      obtain ⟨hnd, hwf⟩ := (wfValue_vObj f).mp h
      simp [webpackMerge, wmFields_self f hnd hwf]
  | vNull => rfl
  | vUndefined => rfl
  | vBool b => rfl
  | vNum n => rfl
  | vStr s => rfl
  | vArr xs => rfl

theorem webpackMerge_idem (a b : Value) (h : wfValue b = true) :
    webpackMerge (webpackMerge a b) b = webpackMerge a b := by
  cases b with
  | vObj fb =>
      obtain ⟨hnd, hwf⟩ := (wfValue_vObj fb).mp h
      cases a with
      | vObj fa => simp [webpackMerge, wmFields_idem fa fb hnd hwf]
      | vNull => simp [webpackMerge, wmFields_self fb hnd hwf]
      | vUndefined => simp [webpackMerge, wmFields_self fb hnd hwf]
      | vBool b1 => simp [webpackMerge, wmFields_self fb hnd hwf]
      | vNum n => simp [webpackMerge, wmFields_self fb hnd hwf]
      | vStr s => simp [webpackMerge, wmFields_self fb hnd hwf]
      | vArr xs => simp [webpackMerge, wmFields_self fb hnd hwf]
  | vNull => cases a <;> rfl
  | vUndefined => cases a <;> rfl
  | vBool b1 => cases a <;> rfl
  | vNum n => cases a <;> rfl
  | vStr s => cases a <;> rfl
  | vArr xs => cases a <;> rfl

/-! ### Per-key lemmas about the merge loop -/

theorem mergeKey_lookup_self (cfg : Fields) (k : String) (v : Value)
    (o : ResolvedMergeOptions) :
    lookupField (mergeKey cfg k v o) k = mergeKeyValue (lookupField cfg k) k v o := by
  simp only [mergeKey, mergeKeyValue, lookupJs]
  split_ifs <;> simp [lookup_setKey_self]

theorem mergeKey_lookup_ne (cfg : Fields) (k k1 : String) (v : Value)
    (o : ResolvedMergeOptions) (h : k ≠ k1) :
    lookupField (mergeKey cfg k v o) k1 = lookupField cfg k1 := by
  simp only [mergeKey, lookupJs]
  split_ifs <;> simp [lookup_setKey_ne _ _ _ _ h]

theorem mergeKey_eq_self_of (cfg : Fields) (k : String) (v : Value)
    (o : ResolvedMergeOptions)
    (h : mergeKeyValue (lookupField cfg k) k v o = lookupField cfg k) :
    mergeKey cfg k v o = cfg := by
  simp only [mergeKeyValue, lookupJs] at h
  simp only [mergeKey, lookupJs]
  split_ifs at h ⊢ with h1 h2 h3 h4
  · rfl
  · exact setKey_self _ _ _ h.symm
  · exact setKey_self _ _ _ h.symm
  · exact setKey_self _ _ _ h.symm
  · rfl

theorem fold_mergeKey_lookup_ne (data : Fields) (cfg : Fields)
    (o : ResolvedMergeOptions) (k : String) (h : ∀ kv ∈ data, kv.1 ≠ k) :
    lookupField (data.foldl (fun acc kv => mergeKey acc kv.1 kv.2 o) cfg) k =
      lookupField cfg k := by
  induction data generalizing cfg with
  | nil => rfl
  | cons hd t ih =>
      rw [List.foldl_cons, ih _ (fun kv hkv => h kv (List.mem_cons_of_mem hd hkv)),
        mergeKey_lookup_ne _ _ _ _ _ (h hd (List.mem_cons_self hd t))]

theorem lookup_fold_mergeKey (data : Fields) (cfg : Fields)
    (o : ResolvedMergeOptions) (k : String) (v : Value)
    (hnd : (keys data).Nodup) (hmem : (k, v) ∈ data) :
    lookupField (data.foldl (fun acc kv => mergeKey acc kv.1 kv.2 o) cfg) k =
      mergeKeyValue (lookupField cfg k) k v o := by
  induction data generalizing cfg with
  | nil => simp at hmem
  | cons hd t ih =>
      obtain ⟨k0, v0⟩ := hd
      obtain ⟨hk0, hndt⟩ := (keys_nodup_cons k0 v0 t).mp hnd
      rcases List.mem_cons.mp hmem with h | h
      · rw [Prod.mk.injEq] at h
        obtain ⟨h1, h2⟩ := h
        subst h1; subst h2
        have hrest : ∀ kv ∈ t, kv.1 ≠ k := by
          intro kv hkv he
          apply hk0
          rw [← he]
          exact List.mem_map_of_mem Prod.fst hkv
        rw [List.foldl_cons, fold_mergeKey_lookup_ne _ _ _ _ hrest,
          mergeKey_lookup_self]
      · have hkk0 : k0 ≠ k := by
          intro he
          subst he
          exact hk0 (mem_keys_of_mem h)
        rw [List.foldl_cons, ih _ hndt h, mergeKey_lookup_ne _ _ _ _ _ hkk0]

theorem mem_keys_mergeKey (cfg : Fields) (key k1 : String) (v : Value)
    (o : ResolvedMergeOptions) (h : k1 ∈ keys cfg) :
    k1 ∈ keys (mergeKey cfg key v o) := by
  simp only [mergeKey, lookupJs]
  split_ifs <;> first
    | exact h
    | exact mem_keys_setKey _ _ _ _ h

/-! ### Idempotence of the per-key merge under default options -/

theorem toFields_vObj (f : Fields) : (Value.vObj f).toFields = f := rfl

theorem isVObj_exists (v : Value) (h : v.isVObj = true) : ∃ f, v = .vObj f := by
  cases v with
  | vObj f => exact ⟨f, rfl⟩
  | vNull => simp [Value.isVObj] at h
  | vUndefined => simp [Value.isVObj] at h
  | vBool b => simp [Value.isVObj] at h
  | vNum n => simp [Value.isVObj] at h
  | vStr s => simp [Value.isVObj] at h
  | vArr xs => simp [Value.isVObj] at h

theorem wm_keeps_objlike (w v : Value) (htv : truthy v = true)
    (hto : typeofObject v = true) :
    truthy (webpackMerge w v) = true ∧ typeofObject (webpackMerge w v) = true := by
  cases v with
  | vArr xs => cases w <;> simp [webpackMerge, truthy, typeofObject]
  | vObj f => cases w <;> simp [webpackMerge, truthy, typeofObject]
  | vNull => simp [truthy] at htv
  | vUndefined => simp [truthy] at htv
  | vBool b => simp [typeofObject] at hto
  | vNum n => simp [typeofObject] at hto
  | vStr s => simp [typeofObject] at hto

theorem mergeKeyValue_some_self (k : String) (v : Value)
    (htv : truthy v = true) (hv : wfValue v = true)
    (hd : truthy v = true → isDependenciesKey k = true →
      typeofObject v = true → v.isVObj = true) :
    mergeKeyValue (some v) k v ⟨true, true⟩ = some v := by
  by_cases hto : typeofObject v = true
  · by_cases hdk : isDependenciesKey k = true
    · obtain ⟨f, rfl⟩ := isVObj_exists v (hd htv hdk hto)
      have hndf : (keys f).Nodup := ((wfValue_vObj f).mp hv).1
      simp [mergeKeyValue, htv, hto, hdk, toFields_vObj,
        mergeDependencies_self f hndf]
    · simp only [Bool.not_eq_true] at hdk
      simp [mergeKeyValue, htv, hto, hdk, webpackMerge_self v hv]
  · simp only [Bool.not_eq_true] at hto
    simp [mergeKeyValue, htv, hto]

theorem mergeKeyValue_idem (k : String) (v : Value) (old : Option Value)
    (hv : wfValue v = true)
    (hd : truthy v = true → isDependenciesKey k = true →
      typeofObject v = true → v.isVObj = true) :
    mergeKeyValue (mergeKeyValue old k v ⟨true, true⟩) k v ⟨true, true⟩ =
      mergeKeyValue old k v ⟨true, true⟩ := by
  cases htv : truthy v with
  | false => simp [mergeKeyValue, htv]
  | true =>
      cases hoo : truthy (old.getD .vUndefined) with
      | false =>
          have hr : mergeKeyValue old k v ⟨true, true⟩ = some v := by
            simp [mergeKeyValue, htv, hoo]
          rw [hr]
          exact mergeKeyValue_some_self k v htv hv hd
      | true =>
          obtain ⟨w, rfl⟩ : ∃ w, old = some w := by
            cases old with
            | none => simp [truthy] at hoo
            | some w => exact ⟨w, rfl⟩
          simp only [Option.getD] at hoo
          by_cases hto : typeofObject v = true
          · by_cases hdk : isDependenciesKey k = true
            · obtain ⟨f, rfl⟩ := isVObj_exists v (hd htv hdk hto)
              have hndf : (keys f).Nodup := ((wfValue_vObj f).mp hv).1
              have hr : mergeKeyValue (some w) k (.vObj f) ⟨true, true⟩ =
                  some (.vObj (mergeDependencies w.toFields f)) := by
                simp [mergeKeyValue, htv, hoo, hto, hdk, toFields_vObj]
              rw [hr]
              have houter : mergeKeyValue
                  (some (.vObj (mergeDependencies w.toFields f)))
                  k (.vObj f) ⟨true, true⟩ =
                  some (.vObj (mergeDependencies
                    (mergeDependencies w.toFields f) f)) := by
                simp [mergeKeyValue, htv, hto, hdk, toFields_vObj, truthy]
              rw [houter, mergeDependencies_idem _ _ hndf]
            · simp only [Bool.not_eq_true] at hdk
              by_cases htw : typeofObject w = true
              · have hr : mergeKeyValue (some w) k v ⟨true, true⟩ =
                    some (webpackMerge w v) := by
                  simp [mergeKeyValue, htv, hoo, hto, hdk, htw]
                rw [hr]
                obtain ⟨hwt, hwo⟩ := wm_keeps_objlike w v htv hto
                have houter : mergeKeyValue (some (webpackMerge w v)) k v
                    ⟨true, true⟩ = some (webpackMerge (webpackMerge w v) v) := by
                  simp [mergeKeyValue, htv, hwt, hto, hdk, hwo]
                rw [houter, webpackMerge_idem w v hv]
              · simp only [Bool.not_eq_true] at htw
                have hr : mergeKeyValue (some w) k v ⟨true, true⟩ = some w := by
                  simp [mergeKeyValue, htv, hoo, hto, hdk, htw]
                rw [hr]
                exact hr
          · simp only [Bool.not_eq_true] at hto
            have hr : mergeKeyValue (some w) k v ⟨true, true⟩ = some w := by
              simp [mergeKeyValue, htv, hoo, hto]
            rw [hr]
            exact hr

/-! ### Claim theorems -/

/-- The spec data-model invariant (spec 3) on a fragment: a truthy value
stored under `dependencies` or `devDependencies` with `typeof 'object'` is a
plain mapping (not an array). -/
def depsShapeOK (data : Fields) : Bool :=
  data.all fun kv =>
    !(isDependenciesKey kv.1 && truthy kv.2 && typeofObject kv.2) || kv.2.isVObj

/-- Claim C1: for every JS-representable configuration fragment F (nested
objects have distinct keys; dependency-key values satisfy the spec-3
data-model invariant) and every merge target T, merging F into T twice with
the default options (`merge: true`) yields the same configuration as merging
it once: `mergeIntoCurrent` is idempotent on repeated application of an
identical fragment. -/
theorem C1_mergeIntoCurrent_idempotent (T F : Fields)
    (hF : wfValue (.vObj F) = true) (hD : depsShapeOK F = true) :
    PackageManager.mergeIntoCurrent (PackageManager.mergeIntoCurrent T F none) F none =
      PackageManager.mergeIntoCurrent T F none := by
  have hndF : (keys F).Nodup := ((wfValue_vObj F).mp hF).1
  have hwfF : wfFields F = true := ((wfValue_vObj F).mp hF).2
  unfold PackageManager.mergeIntoCurrent
  apply foldl_fixed
  intro kv hkv
  apply mergeKey_eq_self_of
  have hlook := lookup_fold_mergeKey F T (resolveMergeOptions none) kv.1 kv.2
    hndF (by simpa using hkv)
  rw [hlook]
  have hp : (!(isDependenciesKey kv.1 && truthy kv.2 && typeofObject kv.2)
      || kv.2.isVObj) = true := by
    have := hD
    rw [depsShapeOK, List.all_eq_true] at this
    exact this kv hkv
  exact mergeKeyValue_idem kv.1 kv.2 _ (wfFields_mem F hwfF kv hkv)
    (fun htv hdk hto => by simpa [hdk, htv, hto] using hp)

/-- Witness for C1 at a concrete target and fragment. -/
theorem C1_witness :
    PackageManager.mergeIntoCurrent
        (PackageManager.mergeIntoCurrent
          [("name", .vStr "app"), ("dependencies", .vObj [("react", .vStr "^16.0.0")])]
          [("dependencies", .vObj [("react", .vStr "^17.0.0")]),
            ("scripts", .vObj [("build", .vStr "tsc")])] none)
        [("dependencies", .vObj [("react", .vStr "^17.0.0")]),
          ("scripts", .vObj [("build", .vStr "tsc")])] none =
      PackageManager.mergeIntoCurrent
        [("name", .vStr "app"), ("dependencies", .vObj [("react", .vStr "^16.0.0")])]
        [("dependencies", .vObj [("react", .vStr "^17.0.0")]),
          ("scripts", .vObj [("build", .vStr "tsc")])] none :=
  C1_mergeIntoCurrent_idempotent _ _
    (by simp [wfValue, wfFields_cons, wfFields])
    (by decide)

/-- Claim C2: starting from any configuration with no truthy `dependencies`
entry, merging `{dependencies: {react: "^17.0.0"}}` and then
`{dependencies: {react: "^16.0.0"}}` with default options leaves
`dependencies.react == "^17.0.0"`: the incoming older range does not win. -/
theorem C2_incoming_older_range_loses (cfg : Fields)
    (h : truthy (lookupJs cfg "dependencies") = false) :
    lookupField
      (PackageManager.mergeIntoCurrent
        (PackageManager.mergeIntoCurrent cfg
          [("dependencies", .vObj [("react", .vStr "^17.0.0")])] none)
        [("dependencies", .vObj [("react", .vStr "^16.0.0")])] none)
      "dependencies" = some (.vObj [("react", .vStr "^17.0.0")]) := by
  have h1 : PackageManager.mergeIntoCurrent cfg
      [("dependencies", .vObj [("react", .vStr "^17.0.0")])] none =
      setKey cfg "dependencies" (.vObj [("react", .vStr "^17.0.0")]) := by
    simp only [lookupJs] at h
    simp [PackageManager.mergeIntoCurrent, mergeKey, lookupJs, truthy_vObj, h, resolveMergeOptions]
  rw [h1]
  have h2 : PackageManager.mergeIntoCurrent
      (setKey cfg "dependencies" (.vObj [("react", .vStr "^17.0.0")]))
      [("dependencies", .vObj [("react", .vStr "^16.0.0")])] none =
      mergeKey (setKey cfg "dependencies" (.vObj [("react", .vStr "^17.0.0")]))
        "dependencies" (.vObj [("react", .vStr "^16.0.0")])
        (resolveMergeOptions none) := rfl
  rw [h2, mergeKey_lookup_self, lookup_setKey_self]
  rfl

/-- Witness for C2: the two merges applied to the empty configuration. -/
theorem C2_witness :
    lookupField
      (PackageManager.mergeIntoCurrent
        (PackageManager.mergeIntoCurrent []
          [("dependencies", .vObj [("react", .vStr "^17.0.0")])] none)
        [("dependencies", .vObj [("react", .vStr "^16.0.0")])] none)
      "dependencies" = some (.vObj [("react", .vStr "^17.0.0")]) :=
  C2_incoming_older_range_loses [] rfl

/-- Claim C3 counterexample: under default options the incoming value
`false` is skipped, not written — the claim predicts
`some (vBool false)` here, but the key stays absent. -/
theorem C3_counterexample :
    lookupField (PackageManager.mergeIntoCurrent []
      [("private", .vBool false)] none) "private" = none := rfl

/-- Claim C3 (amended): under default options a key of the incoming fragment
is skipped (existing value untouched) exactly when the incoming value is
falsy (null, undefined, `false`, `0` or `""`); a truthy incoming value with
no truthy existing value for that key is written into the configuration. -/
theorem C3_amended_falsy_skipped (cfg data : Fields) (k : String) (v : Value)
    (hnd : (keys data).Nodup) (hmem : (k, v) ∈ data) :
    (truthy v = false →
      lookupField (PackageManager.mergeIntoCurrent cfg data none) k =
        lookupField cfg k) ∧
    (truthy v = true → truthy (lookupJs cfg k) = false →
      lookupField (PackageManager.mergeIntoCurrent cfg data none) k = some v) := by
  have hlook : lookupField (PackageManager.mergeIntoCurrent cfg data none) k =
      mergeKeyValue (lookupField cfg k) k v (resolveMergeOptions none) :=
    lookup_fold_mergeKey data cfg (resolveMergeOptions none) k v hnd hmem
  constructor
  · intro htv
    rw [hlook]
    simp [mergeKeyValue, htv, resolveMergeOptions]
  · intro htv ho
    simp only [lookupJs] at ho
    rw [hlook]
    simp [mergeKeyValue, htv, ho, resolveMergeOptions]

/-- Witness for C3 (amended): `false` is skipped even with an unrelated key
present, and a truthy string is written over an absent key. -/
theorem C3_witness :
    lookupField (PackageManager.mergeIntoCurrent [("x", .vNum 1)]
      [("private", .vBool false)] none) "private" =
      lookupField [("x", .vNum 1)] "private" :=
  (C3_amended_falsy_skipped [("x", .vNum 1)] [("private", .vBool false)]
    "private" (.vBool false) (by simp [keys]) (by simp)).1 rfl

/-- Claim C4 counterexample: with both values present, an incoming scalar is
dropped — the existing `"1.0.0"` survives although the claim predicts the
incoming `"2.0.0"` overwrites it. -/
theorem C4_counterexample :
    lookupField (PackageManager.mergeIntoCurrent [("version", .vStr "1.0.0")]
      [("version", .vStr "2.0.0")] none) "version" = some (.vStr "1.0.0") := rfl

/-- Claim C4 (amended): with `merge: true` and both values present (truthy),
at a non-dependency key: an incoming non-object value is dropped (the
existing value is kept, not overwritten); an incoming object over a
non-object existing value is also dropped; only when both values have
`typeof 'object'` is `webpackMerge` applied. -/
theorem C4_amended_scalar_dropped (cfg : Fields) (k : String) (v : Value)
    (htv : truthy v = true) (hto : truthy (lookupJs cfg k) = true)
    (hdk : isDependenciesKey k = false) :
    (typeofObject v = false →
      PackageManager.mergeIntoCurrent cfg [(k, v)] none = cfg) ∧
    (typeofObject v = true → typeofObject (lookupJs cfg k) = false →
      PackageManager.mergeIntoCurrent cfg [(k, v)] none = cfg) ∧
    (typeofObject v = true → typeofObject (lookupJs cfg k) = true →
      PackageManager.mergeIntoCurrent cfg [(k, v)] none =
        setKey cfg k (webpackMerge (lookupJs cfg k) v)) := by
  have heq : PackageManager.mergeIntoCurrent cfg [(k, v)] none =
      mergeKey cfg k v (resolveMergeOptions none) := rfl
  simp only [lookupJs] at hto ⊢
  refine ⟨?_, ?_, ?_⟩
  · intro hv
    rw [heq]
    simp [mergeKey, lookupJs, htv, hto, hdk, hv, resolveMergeOptions]
  · intro hv ho
    rw [heq]
    simp [mergeKey, lookupJs, htv, hto, hdk, hv, ho, resolveMergeOptions]
  · intro hv ho
    rw [heq]
    simp [mergeKey, lookupJs, htv, hto, hdk, hv, ho, resolveMergeOptions]

/-- Witness for C4 (amended): the scalar-dropping branch at a concrete
configuration. -/
theorem C4_witness :
    PackageManager.mergeIntoCurrent [("version", .vStr "1.0.0")]
      [("version", .vStr "2.0.0")] none = [("version", .vStr "1.0.0")] :=
  (C4_amended_scalar_dropped [("version", .vStr "1.0.0")] "version"
    (.vStr "2.0.0") rfl rfl rfl).1 rfl

theorem mem_insertSorted (x kv : String × Value) (l : Fields) :
    x ∈ insertSorted kv l ↔ x = kv ∨ x ∈ l := by
  induction l with
  | nil => simp [insertSorted]
  | cons hd t ih =>
      by_cases hle : kv.1 ≤ hd.1
      · simp [insertSorted, hle]
      · simp [insertSorted, hle, ih]
        tauto

theorem mem_sortPackageJson (x : String × Value) (l : Fields) :
    x ∈ sortPackageJson l ↔ x ∈ l := by
  induction l with
  | nil => simp [sortPackageJson]
  | cons hd t ih =>
      have : sortPackageJson (hd :: t) = insertSorted hd (sortPackageJson t) := rfl
      rw [this, mem_insertSorted, ih]
      simp

/-- Claim C5 counterexample: a nested empty mapping (not at the top level)
survives `getPackageConfig` — pruning is not applied at any depth. -/
theorem C5_counterexample :
    lookupField (PackageManager.getPackageConfig
      [("foo", .vObj [("bar", .vObj [])])]).2 "foo" =
      some (.vObj [("bar", .vObj [])]) := rfl

/-- Claim C5 (amended): the object returned by `getPackageConfig` contains
no top-level key whose value is an empty mapping (empty object or array);
deeper levels are returned unpruned. -/
theorem C5_amended_top_level_pruned (cfg : Fields) :
    ∀ kv ∈ (PackageManager.getPackageConfig cfg).2,
      isEmptyObjectLike kv.2 = false := by
  intro kv hkv
  have hs : (PackageManager.getPackageConfig cfg).2 =
      sortPackageJson (pruneEmptyTop cfg) := rfl
  rw [hs, mem_sortPackageJson] at hkv
  have := (List.mem_filter.mp hkv).2
  simpa using this

/-- Witness for C5 (amended) at a one-key configuration. -/
theorem C5_witness : isEmptyObjectLike (Value.vObj [("x", Value.vNum 1)]) = false :=
  C5_amended_top_level_pruned [("a", .vObj [("x", .vNum 1)])]
    ("a", .vObj [("x", .vNum 1)]) (List.mem_singleton.mpr rfl)

/-- Claim C6 counterexample: `getPackageConfig` deletes an empty-mapping key
from the stored configuration itself — the in-memory model is modified, so
the call is not side-effect free. -/
theorem C6_counterexample :
    (PackageManager.getPackageConfig [("emptySection", .vObj [])]).1 ≠
      [("emptySection", .vObj [])] := by
  intro h
  rw [show (PackageManager.getPackageConfig [("emptySection", .vObj [])]).1 =
    ([] : Fields) from rfl] at h
  exact List.cons_ne_nil _ _ h.symm

/-- Claim C6 (amended): `getPackageConfig` removes the top-level
empty-mapping keys from the stored configuration in place; when no stored
top-level value is an empty mapping, the stored configuration is unchanged
by the call. -/
theorem C6_amended_state_effect (cfg : Fields)
    (h : ∀ kv ∈ cfg, isEmptyObjectLike kv.2 = false) :
    (PackageManager.getPackageConfig cfg).1 = cfg := by
  have hself : pruneEmptyTop cfg = cfg := by
    apply List.filter_eq_self.mpr
    intro kv hkv
    simp [h kv hkv]
  exact hself

/-- Witness for C6 (amended) at a configuration with no empty mappings. -/
theorem C6_witness :
    (PackageManager.getPackageConfig [("name", .vStr "x")]).1 =
      [("name", .vStr "x")] :=
  C6_amended_state_effect [("name", .vStr "x")]
    (by
      intro kv hkv
      rw [List.mem_singleton.mp hkv]
      rfl)


/-- Claim C7: `validateCreateCommand` is a pure function returning
`{validated: true, message: null}` for every non-empty project-type string,
and `{validated: false, message: m}` with the fixed non-null message for an
absent or empty project type. -/
theorem C7_validateCreateCommand :
    (∀ s : String, s ≠ "" →
      CoreManager.validateCreateCommand ⟨some s⟩ = ⟨true, none⟩) ∧
    CoreManager.validateCreateCommand ⟨none⟩ =
      ⟨false, some serviceTypeEmptyMessage⟩ ∧
    CoreManager.validateCreateCommand ⟨some ""⟩ =
      ⟨false, some serviceTypeEmptyMessage⟩ := by
  refine ⟨?_, rfl, rfl⟩
  intro s hs
  simp [CoreManager.validateCreateCommand, hs]

/-- Witness for C7 at the project type used by the unit test. -/
theorem C7_witness :
    CoreManager.validateCreateCommand ⟨some "react"⟩ = ⟨true, none⟩ :=
  C7_validateCreateCommand.1 "react" (by decide)

/-- Claim C8: constructing against a base directory whose `package.json`
cannot be resolved fails with the config-not-found error when no default
skeleton is supplied (`createWithResolve`); when a caller-supplied skeleton
is given (`packageConfig` option), construction succeeds and the manager
state holds exactly the supplied defaults. -/
theorem C8_construction (dir : WorkingDirectory) (h : dir.packageJson = none) :
    PackageManager.createWithResolve dir = .error "package.json 文件不存在！" ∧
    ∀ (d : Fields) (m : Option String),
      (PackageManager.createWithOptions dir ⟨m, some d⟩).packageConfig = d := by
  constructor
  · simp [PackageManager.createWithResolve, PackageManager.resolvePackageConfig, h]
  · intro d m
    rfl

/-- Witness for C8 at a directory with no parsable `package.json`. -/
theorem C8_witness :
    PackageManager.createWithResolve ⟨none, false⟩ =
      .error "package.json 文件不存在！" :=
  (C8_construction ⟨none, false⟩ rfl).1

/-- Claim C9 counterexample: the user's app configuration carries the
present port value `0`, yet the dev server is told to listen on the default
`9000` — a present (but falsy) user value does not reach the delegate, so
the pair is not always "taken from the user's app configuration when
present". -/
theorem C9_counterexample :
    (ReactService.start ⟨none, some ⟨some 0, none⟩⟩ (.vObj []) []).listenPort =
        9000 ∧ (0 : Nat) ≠ 9000 :=
  ⟨rfl, by decide⟩

/-- Claim C9 (amended): the host/port pair handed to the dev-server delegate
never depends on the plugin-contributed webpack fragments or on the bundler
configuration; a present, truthy user-configured value (non-zero port,
non-empty host) is passed to the delegate verbatim, and in every other case
(absent section, absent field, or present falsy value) the built-in default
(9000 / "0.0.0.0") is passed instead. -/
theorem C9_amended_listen_args (appConfig : AppConfig) (b b1 : Value)
    (f f1 : List Value) :
    ((ReactService.start appConfig b f).listenPort =
        (ReactService.start appConfig b1 f1).listenPort ∧
      (ReactService.start appConfig b f).listenHost =
        (ReactService.start appConfig b1 f1).listenHost) ∧
    (∀ a p, appConfig.additional = some a → a.webpackDevServerPort = some p →
      p ≠ 0 → (ReactService.start appConfig b f).listenPort = p) ∧
    (∀ a, appConfig.additional = some a →
      a.webpackDevServerPort = none ∨ a.webpackDevServerPort = some 0 →
      (ReactService.start appConfig b f).listenPort =
        DEFAULT_WEBPACK_DEV_SERVER_PORT) ∧
    (appConfig.additional = none →
      (ReactService.start appConfig b f).listenPort =
        DEFAULT_WEBPACK_DEV_SERVER_PORT) ∧
    (∀ a h2, appConfig.additional = some a → a.webpackDevServerHost = some h2 →
      h2 ≠ "" → (ReactService.start appConfig b f).listenHost = h2) ∧
    (∀ a, appConfig.additional = some a →
      a.webpackDevServerHost = none ∨ a.webpackDevServerHost = some "" →
      (ReactService.start appConfig b f).listenHost =
        DEFAULT_WEBPACK_DEV_SERVER_HOST) ∧
    (appConfig.additional = none →
      (ReactService.start appConfig b f).listenHost =
        DEFAULT_WEBPACK_DEV_SERVER_HOST) := by
  refine ⟨⟨rfl, rfl⟩, ?_, ?_, ?_, ?_, ?_, ?_⟩
  · intro a p hadd hport hp
    simp [ReactService.start, jsOrNat, hadd, hport, hp]
  · intro a hadd hport
    rcases hport with hport | hport
    · simp [ReactService.start, jsOrNat, hadd, hport]
    · simp [ReactService.start, jsOrNat, hadd, hport]
  · intro hadd
    simp [ReactService.start, jsOrNat, hadd]
  · intro a h2 hadd hhost hh
    have hne : h2.isEmpty = false := by
      cases he : h2.isEmpty
      · rfl
      · exact absurd ((String.isEmpty_iff h2).mp he) hh
    simp [ReactService.start, jsOrStr, hadd, hhost, hne]
  · intro a hadd hhost
    rcases hhost with hhost | hhost
    · simp [ReactService.start, jsOrStr, hadd, hhost]
    · simp [ReactService.start, jsOrStr, hadd, hhost,
        show "".isEmpty = true from rfl]
  · intro hadd
    simp [ReactService.start, jsOrStr, hadd]

/-- Witness for C9 (amended): a present non-zero port and non-empty host are
handed to the delegate verbatim. -/
theorem C9_witness :
    (ReactService.start ⟨none, some ⟨some 5000, some "127.0.0.1"⟩⟩
        (.vObj []) []).listenPort = 5000 ∧
    (ReactService.start ⟨none, some ⟨some 5000, some "127.0.0.1"⟩⟩
        (.vObj []) []).listenHost = "127.0.0.1" :=
  ⟨(C9_amended_listen_args ⟨none, some ⟨some 5000, some "127.0.0.1"⟩⟩
      (.vObj []) (.vObj []) [] []).2.1 ⟨some 5000, some "127.0.0.1"⟩ 5000
      rfl rfl (by decide),
    (C9_amended_listen_args ⟨none, some ⟨some 5000, some "127.0.0.1"⟩⟩
      (.vObj []) (.vObj []) [] []).2.2.2.2.1 ⟨some 5000, some "127.0.0.1"⟩
      "127.0.0.1" rfl rfl (by decide)⟩

theorem fold_mergeKey_keys (data : Fields) (o : ResolvedMergeOptions) :
    ∀ cfg : Fields, ∀ k ∈ keys cfg,
      k ∈ keys (data.foldl (fun acc kv => mergeKey acc kv.1 kv.2 o) cfg) := by
  induction data with
  | nil => intro cfg k h; exact h
  | cons hd t ih =>
      intro cfg k h
      rw [List.foldl_cons]
      exact ih _ k (mem_keys_mergeKey _ _ _ _ _ h)

/-- Claim C10: `mergeIntoCurrent` never removes a key — for every stored
configuration, fragment and options record, every key present before the
merge is still present after it. -/
theorem C10_no_key_removed (cfg data : Fields)
    (options : Option MergePackageConfigOptions) (k : String)
    (h : k ∈ keys cfg) :
    k ∈ keys (PackageManager.mergeIntoCurrent cfg data options) :=
  fold_mergeKey_keys data (resolveMergeOptions options) cfg k h

/-- Witness for C10: even a merge-off, ignore-off overwrite keeps the key. -/
theorem C10_witness :
    "name" ∈ keys (PackageManager.mergeIntoCurrent [("name", .vStr "x")]
      [("name", .vNull)] (some ⟨some false, some false⟩)) :=
  C10_no_key_removed [("name", .vStr "x")] [("name", .vNull)]
    (some ⟨some false, some false⟩) "name" (by simp [keys])

end Serendipity
